import Mathlib

/-!
Verification development for the crawl engine of `tools/scraper_enhanced.py`
(enhanced site scraper).  The Python source is shallowly embedded: pure
functions become Lean functions over `String`/`List Char`, and the
asyncio worker pool of `SiteScraper` becomes an explicit small-step
transition system (`Step`) over an `EngineState`.

All string processing is implemented by structural recursion on `List Char`
so that every definition evaluates by `decide`/`rfl`.

The Python standard-library helpers `urllib.parse.urljoin`, `urldefrag`
and `urlsplit` are external dependencies of the source; they are modelled
here following CPython's `urllib/parse.py` algorithm (scheme detection,
netloc extraction, fragment and query splitting, relative-reference
resolution with dot-segment handling).  `params` (`;`-segments) and the
control-character stripping applied to exotic inputs are not modelled;
no claim depends on them.
-/

set_option maxRecDepth 4000

/-! ## Character-list utilities (structural, kernel-reducible) -/

/-- Split a character list at the first occurrence of `c`:
returns the characters before it, and `some` of the characters after it
when `c` occurs (Python's `str.split(c, 1)`). -/
def breakAtChar (c : Char) : List Char → List Char × Option (List Char)
  | [] => ([], none)
  | x :: xs =>
    if x = c then ([], some xs)
    else (x :: (breakAtChar c xs).1, (breakAtChar c xs).2)

theorem breakAtChar_fst_not_mem (c : Char) (l : List Char) :
    c ∉ (breakAtChar c l).1 := by
  induction l with
  | nil => simp [breakAtChar]
  | cons x xs ih =>
    by_cases hx : x = c
    · simp [breakAtChar, hx]
    · simp only [breakAtChar, if_neg hx, List.mem_cons, not_or]
      exact ⟨fun h => hx h.symm, ih⟩

theorem breakAtChar_snd_none (c : Char) (l : List Char) :
    (breakAtChar c l).2 = none → c ∉ l := by
  induction l with
  | nil => simp
  | cons x xs ih =>
    by_cases hx : x = c
    · simp [breakAtChar, hx]
    · simp only [breakAtChar, if_neg hx]
      intro h
      simp only [List.mem_cons, not_or]
      exact ⟨fun h1 => hx h1.symm, ih h⟩

/-- Split a character list on every occurrence of `c`
(Python's `str.split(c)`; the result is never empty). -/
def splitOnChar (c : Char) : List Char → List (List Char)
  | [] => [[]]
  | x :: xs =>
    if x = c then [] :: splitOnChar c xs
    else
      match splitOnChar c xs with
      | [] => [[x]]
      | h :: t => (x :: h) :: t

/-- Join character lists with `c` between them (Python's `c.join(parts)`). -/
def joinChar (c : Char) : List (List Char) → List Char
  | [] => []
  | [x] => x
  | x :: y :: xs => x ++ c :: joinChar c (y :: xs)

/-! ## String helpers used by the embedding -/

/-- Boolean prefix test on strings. -/
def strStartsWith (s p : String) : Bool := p.data.isPrefixOf s.data

/-- Boolean suffix test on strings. -/
def strEndsWith (s p : String) : Bool := p.data.isSuffixOf s.data

/-- ASCII-oriented lowercasing (`str.lower` on the characters we care about). -/
def lowerStr (s : String) : String := String.mk (s.data.map Char.toLower)

/-- Both-ends whitespace strip (`str.strip()`). -/
def trimStr (s : String) : String :=
  String.mk (((s.data.dropWhile Char.isWhitespace).reverse.dropWhile Char.isWhitespace).reverse)

/-- Boolean character-membership test on strings. -/
def strContainsChar (s : String) (c : Char) : Bool := s.data.contains c

/-! ## Model of `urllib.parse` (external dependency of `URLUtils`) -/

/-- Result of CPython's `urlsplit`: scheme, netloc, path, query, fragment. -/
structure UrlParts where
  scheme : String
  netloc : String
  path : String
  query : String
  fragment : String
deriving Repr, DecidableEq

/-- Characters allowed in a URL scheme after the leading letter. -/
def schemeChar (c : Char) : Bool :=
  c.isAlpha || c.isDigit || c = '+' || c = '-' || c = '.'

/-- Scan up to the first `:`; succeeds when every character before it is a
scheme character (tail of CPython's scheme detection). -/
def splitSchemeAux : List Char → List Char → Option (List Char × List Char)
  | _, [] => none
  | acc, c :: cs =>
    if c = ':' then some (acc.reverse, cs)
    else if schemeChar c then splitSchemeAux (c :: acc) cs
    else none

/-- Detect a leading `scheme:`; the first character must be a letter. -/
def splitScheme : List Char → Option (List Char × List Char)
  | [] => none
  | c :: cs => if c.isAlpha then splitSchemeAux [c] cs else none

/-- True for characters that terminate the netloc component. -/
def notNetlocEnd (c : Char) : Bool := !(c = '/' || c = '?' || c = '#')

/-- Model of CPython's `urlsplit(url, scheme=defScheme)`: extract scheme
(falling back to `defScheme`), then `//netloc`, then fragment, then query. -/
def urlsplitWith (defScheme : String) (url : String) : UrlParts :=
  let l := url.data
  let sr :=
    match splitScheme l with
    | some (sch, rest) => (String.mk (sch.map Char.toLower), rest)
    | none => (defScheme, l)
  let nr :=
    match sr.2 with
    | '/' :: '/' :: rest2 => (rest2.takeWhile notNetlocEnd, rest2.dropWhile notNetlocEnd)
    | rest => ([], rest)
  let rf :=
    match breakAtChar '#' nr.2 with
    | (pre, some post) => (pre, post)
    | (pre, none) => (pre, [])
  let pq :=
    match breakAtChar '?' rf.1 with
    | (pre, some post) => (pre, post)
    | (pre, none) => (pre, [])
  { scheme := sr.1, netloc := String.mk nr.1, path := String.mk pq.1,
    query := String.mk pq.2, fragment := String.mk rf.2 }

/-- Model of Python's `urlparse` as used by the scraper (params ignored). -/
def urlparse (url : String) : UrlParts := urlsplitWith "" url

/-- Model of CPython's `urlunsplit`. -/
def urlunsplit (p : UrlParts) : String :=
  let u := p.path
  let u :=
    if p.netloc ≠ "" ∨ strStartsWith u "//" then
      "//" ++ p.netloc ++ (if u ≠ "" ∧ ¬ strStartsWith u "/" then "/" ++ u else u)
    else u
  let u := if p.scheme ≠ "" then p.scheme ++ ":" ++ u else u
  let u := if p.query ≠ "" then u ++ "?" ++ p.query else u
  if p.fragment ≠ "" then u ++ "#" ++ p.fragment else u

/-- Model of Python's `urldefrag`: split at the first `#`. -/
def urldefrag (url : String) : String × String :=
  match breakAtChar '#' url.data with
  | (pre, some post) => (String.mk pre, String.mk post)
  | (_, none) => (url, "")

/-- Schemes for which relative-reference resolution applies (CPython
`uses_relative`). -/
def usesRelativeSchemes : List String :=
  ["", "ftp", "http", "gopher", "nntp", "imap", "wais", "file", "https",
   "shttp", "mms", "prospero", "rtsp", "rtspu", "sftp", "svn", "svn+ssh",
   "ws", "wss"]

/-- Schemes that carry a netloc (CPython `uses_netloc`). -/
def usesNetlocSchemes : List String :=
  ["", "ftp", "http", "gopher", "nntp", "telnet", "imap", "wais", "file",
   "mms", "https", "shttp", "snews", "prospero", "rtsp", "rtspu", "rsync",
   "svn", "svn+ssh", "sftp", "nfs", "git", "git+ssh", "ws", "wss"]

/-- CPython's `segments[1:-1] = filter(None, segments[1:-1])`: drop empty
segments strictly between the first and the last. -/
def filterMiddleSegs (segs : List (List Char)) : List (List Char) :=
  match segs with
  | [] => []
  | [x] => [x]
  | x :: rest =>
    match rest.getLast?, rest.dropLast with
    | some lastSeg, mid => x :: (mid.filter (fun s => !s.isEmpty)) ++ [lastSeg]
    | none, _ => [x]

/-- Dot-segment resolution loop of CPython's `urljoin`. -/
def resolveSegments (segs : List (List Char)) : List (List Char) :=
  let res := segs.foldl
    (fun acc seg =>
      if seg = ['.', '.'] then acc.dropLast
      else if seg = ['.'] then acc
      else acc ++ [seg]) []
  match segs.getLast? with
  | some seg => if seg = ['.', '.'] ∨ seg = ['.'] then res ++ [[]] else res
  | none => res

/-- Model of CPython's `urljoin(base, url)` (params ignored). -/
def urljoin (base url : String) : String :=
  if base = "" then url
  else if url = "" then base
  else
    let b := urlsplitWith "" base
    let u := urlsplitWith b.scheme url
    if u.scheme ≠ b.scheme ∨ ¬ usesRelativeSchemes.contains u.scheme then url
    else if usesNetlocSchemes.contains u.scheme ∧ u.netloc ≠ "" then urlunsplit u
    else
      let netloc := if usesNetlocSchemes.contains u.scheme then b.netloc else u.netloc
      if u.path = "" then
        let q := if u.query = "" then b.query else u.query
        urlunsplit { scheme := u.scheme, netloc := netloc, path := b.path,
                     query := q, fragment := u.fragment }
      else
        let bparts := splitOnChar '/' b.path.data
        let bparts := if bparts.getLast? ≠ some [] then bparts.dropLast else bparts
        let segments :=
          if strStartsWith u.path "/" then splitOnChar '/' u.path.data
          else filterMiddleSegs (bparts ++ splitOnChar '/' u.path.data)
        let joined := joinChar '/' (resolveSegments segments)
        let path := if joined.isEmpty then "/" else String.mk joined
        urlunsplit { scheme := u.scheme, netloc := netloc, path := path,
                     query := u.query, fragment := u.fragment }

/-! ## `URLUtils` (translated from `scraper_enhanced.py`) -/

/-- `URLUtils.normalize_link(current_url, href)`: reject falsy input, strip,
reject `mailto:`/`tel:`/`javascript:`/fragment-only hrefs, otherwise resolve
against `current_url` and drop the fragment.  The Python `try/except`
around `urljoin`/`urldefrag` maps to totality of the model. -/
def normalize_link (current_url href : String) : Option String :=
  if href = "" then none
  else
    let h := trimStr href
    if strStartsWith h "mailto:" ∨ strStartsWith h "tel:" ∨
        strStartsWith h "javascript:" ∨ strStartsWith h "#" then none
    else some (urldefrag (urljoin current_url h)).1

/-- `URLUtils.is_same_origin(seed, candidate)`: compare `(scheme, netloc)`. -/
def is_same_origin (seed candidate : String) : Bool :=
  ((urlparse seed).scheme = (urlparse candidate).scheme : Bool) &&
  ((urlparse seed).netloc = (urlparse candidate).netloc : Bool)

/-- Substring containment on character lists (`re.search` of a literal). -/
def isSubstrOf (p : List Char) : List Char → Bool
  | [] => p.isEmpty
  | x :: xs => p.isPrefixOf (x :: xs) || isSubstrOf p xs

/-- `URLUtils.matches_blocklist(url, patterns)`: the configured patterns are
dot-escaped literals, so `re.search` on them is substring containment;
patterns are stored here with the `\.` unescaped to `.`. -/
def matches_blocklist (url : String) (patterns : List String) : Bool :=
  patterns.any (fun p => isSubstrOf p.data url.data)

/-- Extensions of `URLUtils.is_asset_url`'s regular expression
`\.(pdf|zip|png|jpe?g|webp|gif|svg|ico|mp4|mov|mp3|wav|woff2?|ttf|eot)$`,
with the optional groups expanded. -/
def assetExtensions : List String :=
  ["pdf", "zip", "png", "jpg", "jpeg", "webp", "gif", "svg", "ico",
   "mp4", "mov", "mp3", "wav", "woff", "woff2", "ttf", "eot"]

/-- `URLUtils.is_asset_url(url)`: the regex is end-anchored on the whole URL
string and case-insensitive (`re.I`), i.e. the lowercased URL must end in
`.` + extension. -/
def is_asset_url (url : String) : Bool :=
  assetExtensions.any (fun ext => strEndsWith (lowerStr url) ("." ++ ext))

/-! Fragment-stripping facts about `urldefrag`. -/

theorem urldefrag_fst_no_hash (s : String) :
    strContainsChar (urldefrag s).1 '#' = false := by
  unfold urldefrag
  rcases h : breakAtChar '#' s.data with ⟨pre, post⟩
  cases post with
  | none =>
    simp only
    have hn : '#' ∉ s.data := by
      apply breakAtChar_snd_none
      rw [h]
    simpa [strContainsChar, List.contains, List.elem_eq_mem] using hn
  | some rest =>
    simp only
    have hn : '#' ∉ (breakAtChar '#' s.data).1 := breakAtChar_fst_not_mem '#' s.data
    rw [h] at hn
    simpa [strContainsChar, String.mk, List.contains, List.elem_eq_mem] using hn

/-! ## `ScraperConfig` and the CLI override logic of `main()` -/

/-- Translation of the `ScraperConfig` dataclass (fields the crawl engine
reads; browser-viewport dictionaries are omitted). -/
structure ScraperConfig where
  max_pages : Nat
  max_depth : Nat
  concurrency_pages : Nat
  navigation_timeout_ms : Nat
  network_idle_ms : Nat
  page_delay_ms : Nat
  save_content_types : List String
  block_host_patterns : List String
  headless : Bool
  user_agent : String
  save_screenshots : Bool
  save_html : Bool
  save_assets : Bool
  collect_ui_inventory : Bool
  retry_failed_pages : Bool
  max_retries : Nat
  respect_robots_txt : Bool

/-- Default values of the `ScraperConfig` dataclass. -/
def defaultConfig : ScraperConfig :=
  { max_pages := 200
    max_depth := 3
    concurrency_pages := 4
    navigation_timeout_ms := 30000
    network_idle_ms := 1500
    page_delay_ms := 100
    save_content_types := ["text/html", "text/css", "application/javascript",
      "application/x-javascript", "image/", "font/"]
    block_host_patterns := ["googletagmanager.com", "google-analytics.com",
      "hotjar.com", "facebook.com", "doubleclick.net", "googlesyndication.com"]
    headless := true
    user_agent := "Mozilla/5.0 (Windows NT 10.0; Win64; x64) AppleWebKit/537.36 (KHTML, like Gecko) Chrome/123.0.0.0 Safari/537.36"
    save_screenshots := true
    save_html := true
    save_assets := true
    collect_ui_inventory := true
    retry_failed_pages := true
    max_retries := 3
    respect_robots_txt := false }

/-- Command-line arguments read by `main()` after parsing.  `args.headless`
is always set (the paired `--headless`/`--no-headless` flags give it a
default), so it is a plain `Bool`; `respect_robots` is parsed by the
argument parser but never read back by `main()`. -/
structure CliArgs where
  max_pages : Option Nat
  max_depth : Option Nat
  concurrency : Option Nat
  headless : Bool
  cross_origin : Bool
  respect_robots : Bool
  timeout : Option Nat
  delay : Option Nat
  user_agent : Option String

/-- CLI arguments with every option left at its parser default. -/
def defaultArgs : CliArgs :=
  { max_pages := none, max_depth := none, concurrency := none,
    headless := true, cross_origin := false, respect_robots := false,
    timeout := none, delay := none, user_agent := none }

/-- Translation of `main()`'s config-override block: each provided option
overwrites the config field, and `--cross-origin` sets
`respect_robots_txt = False`. -/
def applyCliArgs (args : CliArgs) (cfg : ScraperConfig) : ScraperConfig :=
  let cfg := match args.max_pages with
    | some n => { cfg with max_pages := n }
    | none => cfg
  let cfg := match args.max_depth with
    | some n => { cfg with max_depth := n }
    | none => cfg
  let cfg := match args.concurrency with
    | some n => { cfg with concurrency_pages := n }
    | none => cfg
  let cfg := { cfg with headless := args.headless }
  let cfg := match args.timeout with
    | some n => { cfg with navigation_timeout_ms := n }
    | none => cfg
  let cfg := match args.delay with
    | some n => { cfg with page_delay_ms := n }
    | none => cfg
  let cfg := match args.user_agent with
    | some ua => { cfg with user_agent := ua }
    | none => cfg
  if args.cross_origin then { cfg with respect_robots_txt := false } else cfg

/-! ## Link-discovery filter (`SiteScraper._discover_links` loop body) -/

/-- Decision made for a single raw `href` found on the page at
`currentUrl`/`currentDepth`: normalize it, apply the origin filter (active
exactly when `respect_robots_txt` is false), skip asset URLs, and enqueue
at `currentDepth + 1` only when the target is in neither `seen` nor
`failed` and the new depth does not exceed `max_depth`. -/
def shouldEnqueue (cfg : ScraperConfig) (startUrl : String)
    (seen failed : List String) (currentDepth : Nat)
    (currentUrl href : String) : Option (String × Nat) :=
  match normalize_link currentUrl href with
  | none => none
  | some nextUrl =>
    if ¬ cfg.respect_robots_txt ∧ ¬ is_same_origin startUrl nextUrl then none
    else if is_asset_url nextUrl then none
    else if nextUrl ∉ seen ∧ nextUrl ∉ failed ∧ currentDepth + 1 ≤ cfg.max_depth then
      some (nextUrl, currentDepth + 1)
    else none

theorem shouldEnqueue_some (cfg : ScraperConfig) (startUrl : String)
    (seen failed : List String) (d : Nat) (cu href : String)
    (v : String) (d' : Nat)
    (h : shouldEnqueue cfg startUrl seen failed d cu href = some (v, d')) :
    v ∉ seen ∧ v ∉ failed ∧ d' = d + 1 ∧ d' ≤ cfg.max_depth := by
  unfold shouldEnqueue at h
  split at h
  · exact Option.noConfusion h
  · split at h
    · exact Option.noConfusion h
    · split at h
      · exact Option.noConfusion h
      · split at h
        · rename_i nextUrl hn hfilter hasset h3
          simp only [Option.some.injEq, Prod.mk.injEq] at h
          obtain ⟨hv, hd⟩ := h
          subst hv; subst hd
          exact ⟨h3.1, h3.2.1, rfl, h3.2.2⟩
        · exact Option.noConfusion h

theorem shouldEnqueue_none_of_known (cfg : ScraperConfig) (startUrl : String)
    (seen failed : List String) (d : Nat) (cu href : String) (v : String)
    (hn : normalize_link cu href = some v)
    (hknown : v ∈ seen ∨ v ∈ failed ∨ cfg.max_depth < d + 1) :
    shouldEnqueue cfg startUrl seen failed d cu href = none := by
  simp only [shouldEnqueue, hn]
  split
  · rfl
  · split
    · rfl
    · rw [if_neg]
      intro h3
      rcases hknown with h | h | h
      · exact h3.1 h
      · exact h3.2.1 h
      · omega

/-! ## `UICollector` inventory aggregation -/

/-- Entry appended to `inventory["pages"]` for each scraped page.  The
`meta` dictionary is uninterpreted by `update_inventory` and is modelled
as an opaque string. -/
structure PageRecord where
  url : String
  meta : String
  links : List String
deriving Repr, DecidableEq

/-- The `meta` sub-dictionary of the inventory. -/
structure InventoryMeta where
  total_pages : Nat
  total_assets : Nat
  scraping_start : String
  scraping_end : String
deriving Repr, DecidableEq

/-- The session-wide `UICollector.inventory` dictionary.  Python sets of
strings (`fonts`, `colors`) are modelled as duplicate-free lists in
insertion order; the element dictionaries of `buttons`, `canvases`,
`interactive_controls`, `components` and `links` are uninterpreted by
`update_inventory` and modelled as opaque strings. -/
structure Inventory where
  seed : String
  pages : List PageRecord
  fonts : List String
  colors : List String
  buttons : List String
  links : List String
  css_variables : List (String × String)
  canvases : List String
  interactive_controls : List String
  components : List String
  meta : InventoryMeta
deriving Repr, DecidableEq

/-- Python `set.add`: insert unless already present. -/
def addToSet (l : List String) (x : String) : List String :=
  if x ∈ l then l else l ++ [x]

/-- Assoc-map overwrite (`dict[k] = v`, last writer wins). -/
def setAssoc (m : List (String × String)) (k v : String) : List (String × String) :=
  if m.any (fun kv => kv.1 = k) then
    m.map (fun kv => if kv.1 = k then (k, v) else kv)
  else m ++ [(k, v)]

/-- Per-page extraction result handed to `update_inventory`.  A missing or
empty (falsy) `page_data` dictionary is `none`. -/
structure PageData where
  url : String
  fonts : List String
  colors : List String
  linkItems : List String
  buttons : List String
  canvases : List String
  controls : List String
  components : List String
  css_variables : List (String × String)
  page_meta : String
deriving Repr, DecidableEq

/-- Translation of `UICollector.update_inventory`: return unchanged on
falsy `page_data`; otherwise union fonts/colors into the sets, append a
page record (links capped at 200), extend buttons (capped at 100),
canvases, interactive controls and components, and overwrite each
non-empty CSS-variable binding. -/
def update_inventory (inv : Inventory) (page_data : Option PageData) : Inventory :=
  match page_data with
  | none => inv
  | some pd =>
    { inv with
      fonts := pd.fonts.foldl addToSet inv.fonts
      colors := pd.colors.foldl addToSet inv.colors
      pages := inv.pages ++
        [{ url := pd.url, meta := pd.page_meta, links := pd.linkItems.take 200 }]
      buttons := inv.buttons ++ pd.buttons.take 100
      canvases := inv.canvases ++ pd.canvases
      interactive_controls := inv.interactive_controls ++ pd.controls
      components := inv.components ++ pd.components
      css_variables := pd.css_variables.foldl
        (fun m kv => if kv.2 ≠ "" then setAssoc m kv.1 kv.2 else m)
        inv.css_variables }

/-! ## The crawl engine as a transition system

`SiteScraper.run` seeds `to_visit` with `(start_url, 0)` and starts
`concurrency_pages` copies of `_worker`.  Because asyncio is cooperative,
a worker runs atomically between `await` suspension points; the phases
below are exactly the suspension points of `_worker`/`_scrape_page`:

* `ready` — parked at `to_visit.get()`.  When the queue is non-empty,
  `get()` returns without suspending, the semaphore (whose permit count
  equals the number of workers, so it never blocks) is acquired without
  suspending, and the max-pages check, the `seen_urls` check-and-insert
  and the blocklist check all run synchronously, up to `context.new_page()`.
* `navigating` — at `new_page`/`goto`; the environment decides success
  or failure.
* `navigated` — `goto` succeeded, at the `asyncio.sleep` delay, before
  `page_count += 1`.
* `discovering` — after the increment, at the processor/extraction
  awaits; link discovery itself (filter checks plus `put` on the
  unbounded queue, which never suspends) is one atomic block whose
  hyperlink list is supplied by the environment.
* `exited` — the worker coroutine returned (max-pages check fired).

`unfinished` models `asyncio.Queue._unfinished_tasks`: `put` increments
it and `task_done()` (the `finally` of `_worker`) decrements it;
`to_visit.join()` in `run()` returns exactly when it is zero.

The page processors, the UI collector and the asset interceptor mutate no
engine state read by the crawl logic and catch their own exceptions, so
they do not appear in the state; the `except` branch of `_scrape_page`'s
processing block is therefore not a reachable transition.  The ghost
field `processed` records each `(url, depth)` entry at the moment the
worker takes it up (inserts it into `seen_urls`); it exists only to state
claims about "URLs taken up for processing". -/

inductive Phase where
  | ready : Phase
  | navigating : String → Nat → Phase
  | navigated : String → Nat → Phase
  | discovering : String → Nat → Phase
  | exited : Phase
deriving Repr, DecidableEq

/-- Shared mutable state of a `SiteScraper` crawl session. -/
structure EngineState where
  queue : List (String × Nat)
  seen : List String
  failed : List String
  pageCount : Nat
  unfinished : Nat
  workers : List Phase
  processed : List (String × Nat)
deriving Repr, DecidableEq

/-- State after `run()` seeded the queue and started the workers. -/
def initState (cfg : ScraperConfig) (startUrl : String) : EngineState :=
  { queue := [(startUrl, 0)]
    seen := []
    failed := []
    pageCount := 0
    unfinished := 1
    workers := List.replicate cfg.concurrency_pages Phase.ready
    processed := [] }

/-- One cooperative step of some worker.  `cfg` is the configuration and
`su` the session's `start_url`. -/
inductive Step (cfg : ScraperConfig) (su : String) : EngineState → EngineState → Prop where
  | dequeueCap (s : EngineState) (u : String) (d : Nat)
      (rest : List (String × Nat)) (pre post : List Phase)
      (hq : s.queue = (u, d) :: rest)
      (hw : s.workers = pre ++ Phase.ready :: post)
      (hcap : cfg.max_pages ≤ s.pageCount) :
      Step cfg su s { s with
        queue := rest
        workers := pre ++ Phase.exited :: post
        unfinished := s.unfinished - 1 }
  | dequeueSeen (s : EngineState) (u : String) (d : Nat)
      (rest : List (String × Nat)) (pre post : List Phase)
      (hq : s.queue = (u, d) :: rest)
      (hw : s.workers = pre ++ Phase.ready :: post)
      (hcap : s.pageCount < cfg.max_pages)
      (hseen : u ∈ s.seen) :
      Step cfg su s { s with
        queue := rest
        unfinished := s.unfinished - 1 }
  | dequeueBlocked (s : EngineState) (u : String) (d : Nat)
      (rest : List (String × Nat)) (pre post : List Phase)
      (hq : s.queue = (u, d) :: rest)
      (hw : s.workers = pre ++ Phase.ready :: post)
      (hcap : s.pageCount < cfg.max_pages)
      (hseen : u ∉ s.seen)
      (hblock : matches_blocklist u cfg.block_host_patterns = true) :
      Step cfg su s { s with
        queue := rest
        seen := u :: s.seen
        processed := (u, d) :: s.processed
        unfinished := s.unfinished - 1 }
  | dequeueNav (s : EngineState) (u : String) (d : Nat)
      (rest : List (String × Nat)) (pre post : List Phase)
      (hq : s.queue = (u, d) :: rest)
      (hw : s.workers = pre ++ Phase.ready :: post)
      (hcap : s.pageCount < cfg.max_pages)
      (hseen : u ∉ s.seen)
      (hblock : matches_blocklist u cfg.block_host_patterns = false) :
      Step cfg su s { s with
        queue := rest
        seen := u :: s.seen
        processed := (u, d) :: s.processed
        workers := pre ++ Phase.navigating u d :: post }
  | navFail (s : EngineState) (u : String) (d : Nat) (pre post : List Phase)
      (hw : s.workers = pre ++ Phase.navigating u d :: post) :
      Step cfg su s { s with
        workers := pre ++ Phase.ready :: post
        failed := u :: s.failed
        unfinished := s.unfinished - 1 }
  | navOk (s : EngineState) (u : String) (d : Nat) (pre post : List Phase)
      (hw : s.workers = pre ++ Phase.navigating u d :: post) :
      Step cfg su s { s with
        workers := pre ++ Phase.navigated u d :: post }
  | countInc (s : EngineState) (u : String) (d : Nat) (pre post : List Phase)
      (hw : s.workers = pre ++ Phase.navigated u d :: post) :
      Step cfg su s { s with
        pageCount := s.pageCount + 1
        workers := pre ++ Phase.discovering u d :: post }
  | discover (s : EngineState) (u : String) (d : Nat) (pre post : List Phase)
      (links : List String)
      (hw : s.workers = pre ++ Phase.discovering u d :: post) :
      Step cfg su s { s with
        queue := s.queue ++ links.filterMap (shouldEnqueue cfg su s.seen s.failed d u)
        workers := pre ++ Phase.ready :: post
        unfinished := s.unfinished +
          (links.filterMap (shouldEnqueue cfg su s.seen s.failed d u)).length - 1 }

/-- States reachable during a crawl session started at `su`. -/
def Reachable (cfg : ScraperConfig) (su : String) (s : EngineState) : Prop :=
  Relation.ReflTransGen (Step cfg su) (initState cfg su) s

/-- `to_visit.join()` in `run()` returns: all enqueued entries have been
marked done. -/
def drained (s : EngineState) : Prop := s.unfinished = 0

/-- True for phases in which a worker has passed the max-pages check but
not yet executed `page_count += 1`. -/
def isInflight : Phase → Bool
  | Phase.navigating _ _ => true
  | Phase.navigated _ _ => true
  | _ => false

/-- Number of workers between the max-pages check and the counter
increment. -/
def inflight (s : EngineState) : Nat := s.workers.countP isInflight

/-! ## Inductive invariant of the engine -/

/-- Worker phase `ph` currently holds the entry `(u, d)`. -/
def holdsEntry (ph : Phase) (u : String) (d : Nat) : Prop :=
  ph = Phase.navigating u d ∨ ph = Phase.navigated u d ∨ ph = Phase.discovering u d

/-- Facts preserved by every `Step` (established below by induction over
`Reachable`). -/
structure EngineInv (cfg : ScraperConfig) (s : EngineState) : Prop where
  wlen : s.workers.length = cfg.concurrency_pages
  cap : s.pageCount + inflight s ≤ cfg.max_pages + cfg.concurrency_pages - 1
  procNodup : (s.processed.map Prod.fst).Nodup
  procSeen : ∀ p ∈ s.processed, p.1 ∈ s.seen
  failSeen : ∀ u ∈ s.failed, u ∈ s.seen
  holderSeen : ∀ ph ∈ s.workers, ∀ u d, holdsEntry ph u d → u ∈ s.seen
  queueDepth : ∀ p ∈ s.queue, p.2 ≤ cfg.max_depth
  procDepth : ∀ p ∈ s.processed, p.2 ≤ cfg.max_depth

theorem engineInv_init (cfg : ScraperConfig) (su : String) :
    EngineInv cfg (initState cfg su) := by
  refine ⟨?_, ?_, ?_, ?_, ?_, ?_, ?_, ?_⟩
  · simp [initState]
  · have h0 : List.countP isInflight (List.replicate cfg.concurrency_pages Phase.ready) = 0 := by
      rw [List.countP_eq_zero]
      intro a ha
      rw [List.eq_of_mem_replicate ha]
      simp [isInflight]
    simp [initState, inflight, h0]
  · simp [initState]
  · simp [initState]
  · simp [initState]
  · intro ph hmem u d hcase
    rw [initState] at hmem
    simp only at hmem
    rw [List.eq_of_mem_replicate hmem] at hcase
    rcases hcase with h | h | h <;> exact Phase.noConfusion h
  · intro p hp
    rw [initState] at hp
    simp only [List.mem_singleton] at hp
    subst hp
    simp
  · simp [initState]

/-- Auxiliary: transport `holderSeen` across a single worker-phase update
and a monotone change of the seen set. -/
theorem holderSeen_update (seenOld seenNew : List String)
    (pre post : List Phase) (phOld phNew : Phase)
    (hmono : ∀ u, u ∈ seenOld → u ∈ seenNew)
    (hold : ∀ ph ∈ pre ++ phOld :: post, ∀ u d, holdsEntry ph u d → u ∈ seenOld)
    (hnew : ∀ u d, holdsEntry phNew u d → u ∈ seenNew) :
    ∀ ph ∈ pre ++ phNew :: post, ∀ u d, holdsEntry ph u d → u ∈ seenNew := by
  intro ph hmem u d hcase
  rcases List.mem_append.1 hmem with h | h
  · exact hmono u (hold ph (List.mem_append_left _ h) u d hcase)
  · rcases List.mem_cons.1 h with h | h
    · subst h
      exact hnew u d hcase
    · exact hmono u (hold ph (List.mem_append_right _ (List.mem_cons_of_mem _ h)) u d hcase)

/-- Phases that hold no entry satisfy `holdsEntry` vacuously. -/
theorem holdsEntry_ready (u : String) (d : Nat) : ¬ holdsEntry Phase.ready u d := by
  rintro (h | h | h) <;> exact Phase.noConfusion h

theorem holdsEntry_exited (u : String) (d : Nat) : ¬ holdsEntry Phase.exited u d := by
  rintro (h | h | h) <;> exact Phase.noConfusion h

theorem engineInv_step (cfg : ScraperConfig) (su : String) (s s' : EngineState)
    (hinv : EngineInv cfg s) (hst : Step cfg su s s') : EngineInv cfg s' := by
  obtain ⟨wlen, cap, procNodup, procSeen, failSeen, holderSeen, queueDepth, procDepth⟩ := hinv
  cases hst with
  | dequeueCap u d rest pre post hq hw hcap =>
    refine ⟨?_, ?_, procNodup, procSeen, failSeen, ?_, ?_, procDepth⟩
    · rw [hw] at wlen
      simpa using wlen
    · simp only [inflight] at cap
      rw [hw] at cap
      simp [inflight, List.countP_append, List.countP_cons, isInflight] at cap ⊢
      omega
    · refine holderSeen_update s.seen s.seen pre post Phase.ready Phase.exited
        (fun u h => h) ?_ ?_
      · rw [hw] at holderSeen
        exact holderSeen
      · intro u d hcase
        exact absurd hcase (holdsEntry_exited u d)
    · intro p hp
      refine queueDepth p ?_
      rw [hq]
      exact List.mem_cons_of_mem _ hp
  | dequeueSeen u d rest pre post hq hw hcap hseen =>
    refine ⟨wlen, cap, procNodup, procSeen, failSeen, holderSeen, ?_, procDepth⟩
    intro p hp
    refine queueDepth p ?_
    rw [hq]
    exact List.mem_cons_of_mem _ hp
  | dequeueBlocked u d rest pre post hq hw hcap hseen hblock =>
    refine ⟨wlen, cap, ?_, ?_, ?_, ?_, ?_, ?_⟩
    · simp only [List.map_cons]
      refine List.Nodup.cons ?_ procNodup
      intro hmem
      rcases List.mem_map.1 hmem with ⟨p, hp, hpu⟩
      exact hseen (hpu ▸ procSeen p hp)
    · intro p hp
      rcases List.mem_cons.1 hp with h | h
      · subst h
        exact List.mem_cons_self _ _
      · exact List.mem_cons_of_mem _ (procSeen p h)
    · intro v hv
      exact List.mem_cons_of_mem _ (failSeen v hv)
    · intro ph hmem v e hcase
      exact List.mem_cons_of_mem _ (holderSeen ph hmem v e hcase)
    · intro p hp
      refine queueDepth p ?_
      rw [hq]
      exact List.mem_cons_of_mem _ hp
    · intro p hp
      rcases List.mem_cons.1 hp with h | h
      · subst h
        refine queueDepth (u, d) ?_
        rw [hq]
        exact List.mem_cons_self _ _
      · exact procDepth p h
  | dequeueNav u d rest pre post hq hw hcap hseen hblock =>
    refine ⟨?_, ?_, ?_, ?_, ?_, ?_, ?_, ?_⟩
    · rw [hw] at wlen
      simpa using wlen
    · simp only [inflight] at cap
      rw [hw] at cap wlen
      simp [inflight, List.countP_append, List.countP_cons, isInflight] at cap ⊢
      have h1 : List.countP isInflight pre ≤ pre.length := List.countP_le_length isInflight
      have h2 : List.countP isInflight post ≤ post.length := List.countP_le_length isInflight
      simp only [List.length_append, List.length_cons] at wlen
      omega
    · simp only [List.map_cons]
      refine List.Nodup.cons ?_ procNodup
      intro hmem
      rcases List.mem_map.1 hmem with ⟨p, hp, hpu⟩
      exact hseen (hpu ▸ procSeen p hp)
    · intro p hp
      rcases List.mem_cons.1 hp with h | h
      · subst h
        exact List.mem_cons_self _ _
      · exact List.mem_cons_of_mem _ (procSeen p h)
    · intro v hv
      exact List.mem_cons_of_mem _ (failSeen v hv)
    · refine holderSeen_update s.seen (u :: s.seen) pre post Phase.ready
        (Phase.navigating u d) (fun v h => List.mem_cons_of_mem _ h) ?_ ?_
      · rw [hw] at holderSeen
        exact holderSeen
      · intro v e hcase
        rcases hcase with h | h | h
        · cases h
          exact List.mem_cons_self _ _
        · exact Phase.noConfusion h
        · exact Phase.noConfusion h
    · intro p hp
      refine queueDepth p ?_
      rw [hq]
      exact List.mem_cons_of_mem _ hp
    · intro p hp
      rcases List.mem_cons.1 hp with h | h
      · subst h
        refine queueDepth (u, d) ?_
        rw [hq]
        exact List.mem_cons_self _ _
      · exact procDepth p h
  | navFail u d pre post hw =>
    refine ⟨?_, ?_, procNodup, procSeen, ?_, ?_, queueDepth, procDepth⟩
    · rw [hw] at wlen
      simpa using wlen
    · simp only [inflight] at cap
      rw [hw] at cap
      simp [inflight, List.countP_append, List.countP_cons, isInflight] at cap ⊢
      omega
    · intro v hv
      rcases List.mem_cons.1 hv with h | h
      · subst h
        refine holderSeen (Phase.navigating v d) ?_ v d (Or.inl rfl)
        rw [hw]
        exact List.mem_append_right _ (List.mem_cons_self _ _)
      · exact failSeen v h
    · refine holderSeen_update s.seen s.seen pre post (Phase.navigating u d)
        Phase.ready (fun v h => h) ?_ ?_
      · rw [hw] at holderSeen
        exact holderSeen
      · intro v e hcase
        exact absurd hcase (holdsEntry_ready v e)
  | navOk u d pre post hw =>
    refine ⟨?_, ?_, procNodup, procSeen, failSeen, ?_, queueDepth, procDepth⟩
    · rw [hw] at wlen
      simpa using wlen
    · simp only [inflight] at cap
      rw [hw] at cap
      simp [inflight, List.countP_append, List.countP_cons, isInflight] at cap ⊢
      omega
    · refine holderSeen_update s.seen s.seen pre post (Phase.navigating u d)
        (Phase.navigated u d) (fun v h => h) ?_ ?_
      · rw [hw] at holderSeen
        exact holderSeen
      · intro v e hcase
        rcases hcase with h | h | h
        · exact Phase.noConfusion h
        · cases h
          refine holderSeen (Phase.navigating u d) ?_ u d (Or.inl rfl)
          rw [hw]
          exact List.mem_append_right _ (List.mem_cons_self _ _)
        · exact Phase.noConfusion h
  | countInc u d pre post hw =>
    refine ⟨?_, ?_, procNodup, procSeen, failSeen, ?_, queueDepth, procDepth⟩
    · rw [hw] at wlen
      simpa using wlen
    · simp only [inflight] at cap
      rw [hw] at cap
      simp [inflight, List.countP_append, List.countP_cons, isInflight] at cap ⊢
      omega
    · refine holderSeen_update s.seen s.seen pre post (Phase.navigated u d)
        (Phase.discovering u d) (fun v h => h) ?_ ?_
      · rw [hw] at holderSeen
        exact holderSeen
      · intro v e hcase
        rcases hcase with h | h | h
        · exact Phase.noConfusion h
        · exact Phase.noConfusion h
        · cases h
          refine holderSeen (Phase.navigated u d) ?_ u d (Or.inr (Or.inl rfl))
          rw [hw]
          exact List.mem_append_right _ (List.mem_cons_self _ _)
  | discover u d pre post links hw =>
    refine ⟨?_, ?_, procNodup, procSeen, failSeen, ?_, ?_, procDepth⟩
    · rw [hw] at wlen
      simpa using wlen
    · simp only [inflight] at cap
      rw [hw] at cap
      simp [inflight, List.countP_append, List.countP_cons, isInflight] at cap ⊢
      omega
    · refine holderSeen_update s.seen s.seen pre post (Phase.discovering u d)
        Phase.ready (fun v h => h) ?_ ?_
      · rw [hw] at holderSeen
        exact holderSeen
      · intro v e hcase
        exact absurd hcase (holdsEntry_ready v e)
    · intro p hp
      rcases List.mem_append.1 hp with h | h
      · exact queueDepth p h
      · rcases List.mem_filterMap.1 h with ⟨href, hhref, hsome⟩
        rcases p with ⟨v, d'⟩
        exact (shouldEnqueue_some cfg su s.seen s.failed d u href v d' hsome).2.2.2

/-- Every reachable state satisfies the invariant. -/
theorem engineInv_reachable (cfg : ScraperConfig) (su : String) (s : EngineState)
    (h : Reachable cfg su s) : EngineInv cfg s := by
  induction h with
  | refl => exact engineInv_init cfg su
  | tail hchain hstep ih => exact engineInv_step cfg su _ _ ih hstep

/-! ## Concrete crawl sessions

`exSeed` is a session seed; configurations below vary only the limits.
The traces are explicit `Step` chains; the environment choices (navigation
outcomes and discovered hyperlinks) are the constructor arguments. -/

def exSeed : String := "https://ex.com/"

/-- Session limits 2 pages / depth 1 / 2 workers. -/
def cfgA : ScraperConfig :=
  { defaultConfig with max_pages := 2, max_depth := 1, concurrency_pages := 2 }

/-- State of the `cfgA` session after the seed page was scraped and its two
links `/a`, `/b` were discovered and enqueued. -/
def stateA4 : EngineState :=
  { queue := [("https://ex.com/a", 1), ("https://ex.com/b", 1)]
    seen := ["https://ex.com/"]
    failed := []
    pageCount := 1
    unfinished := 2
    workers := [Phase.ready, Phase.ready]
    processed := [("https://ex.com/", 0)] }

theorem reachA4 : Reachable cfgA exSeed stateA4 := by
  show Relation.ReflTransGen (Step cfgA exSeed) (initState cfgA exSeed) stateA4
  refine Relation.ReflTransGen.head
    (Step.dequeueNav (initState cfgA exSeed) "https://ex.com/" 0 [] [] [Phase.ready]
      rfl rfl (by decide) (by decide) (by decide)) ?_
  refine Relation.ReflTransGen.head
    (Step.navOk _ "https://ex.com/" 0 [] [Phase.ready] rfl) ?_
  refine Relation.ReflTransGen.head
    (Step.countInc _ "https://ex.com/" 0 [] [Phase.ready] rfl) ?_
  refine Relation.ReflTransGen.head
    (Step.discover _ "https://ex.com/" 0 [] [Phase.ready] ["/a", "/b"] rfl) ?_
  exact Relation.ReflTransGen.refl

/-- Final state of the `cfgA` session: both workers passed the max-pages
check while `pageCount = 1 < 2` and both increments landed, giving
`pageCount = 3 > max_pages = 2`. -/
def stateA10 : EngineState :=
  { queue := []
    seen := ["https://ex.com/b", "https://ex.com/a", "https://ex.com/"]
    failed := []
    pageCount := 3
    unfinished := 2
    workers := [Phase.discovering "https://ex.com/a" 1, Phase.discovering "https://ex.com/b" 1]
    processed := [("https://ex.com/b", 1), ("https://ex.com/a", 1), ("https://ex.com/", 0)] }

theorem reachA10 : Reachable cfgA exSeed stateA10 := by
  refine Relation.ReflTransGen.trans reachA4 ?_
  refine Relation.ReflTransGen.head
    (Step.dequeueNav stateA4 "https://ex.com/a" 1 [("https://ex.com/b", 1)] [] [Phase.ready]
      rfl rfl (by decide) (by decide) (by decide)) ?_
  refine Relation.ReflTransGen.head
    (Step.dequeueNav _ "https://ex.com/b" 1 [] [Phase.navigating "https://ex.com/a" 1] []
      rfl rfl (by decide) (by decide) (by decide)) ?_
  refine Relation.ReflTransGen.head
    (Step.navOk _ "https://ex.com/a" 1 [] [Phase.navigating "https://ex.com/b" 1] rfl) ?_
  refine Relation.ReflTransGen.head
    (Step.navOk _ "https://ex.com/b" 1 [Phase.navigated "https://ex.com/a" 1] [] rfl) ?_
  refine Relation.ReflTransGen.head
    (Step.countInc _ "https://ex.com/a" 1 [] [Phase.navigated "https://ex.com/b" 1] rfl) ?_
  refine Relation.ReflTransGen.head
    (Step.countInc _ "https://ex.com/b" 1 [Phase.discovering "https://ex.com/a" 1] [] rfl) ?_
  exact Relation.ReflTransGen.refl

/-- Default configuration session in which the seed's only navigation
attempt fails. -/
def stateB2 : EngineState :=
  { queue := []
    seen := ["https://ex.com/"]
    failed := ["https://ex.com/"]
    pageCount := 0
    unfinished := 0
    workers := [Phase.ready, Phase.ready, Phase.ready, Phase.ready]
    processed := [("https://ex.com/", 0)] }

theorem reachB2 : Reachable defaultConfig exSeed stateB2 := by
  show Relation.ReflTransGen (Step defaultConfig exSeed) (initState defaultConfig exSeed) stateB2
  refine Relation.ReflTransGen.head
    (Step.dequeueNav (initState defaultConfig exSeed) "https://ex.com/" 0 [] []
      [Phase.ready, Phase.ready, Phase.ready] rfl rfl (by decide) (by decide) (by decide)) ?_
  refine Relation.ReflTransGen.head
    (Step.navFail _ "https://ex.com/" 0 [] [Phase.ready, Phase.ready, Phase.ready] rfl) ?_
  exact Relation.ReflTransGen.refl

/-- Session limits 1 page / depth 1 / a single worker. -/
def cfgC : ScraperConfig :=
  { defaultConfig with max_pages := 1, max_depth := 1, concurrency_pages := 1 }

/-- Terminal state of the `cfgC` session: the seed was scraped
(`pageCount = 1`), its links `/a`, `/b` were enqueued, the lone worker
discarded `/a` at the max-pages check and exited; `/b` is still pending
and `unfinished = 1`, so `to_visit.join()` never returns. -/
def stateC5 : EngineState :=
  { queue := [("https://ex.com/b", 1)]
    seen := ["https://ex.com/"]
    failed := []
    pageCount := 1
    unfinished := 1
    workers := [Phase.exited]
    processed := [("https://ex.com/", 0)] }

theorem reachC5 : Reachable cfgC exSeed stateC5 := by
  show Relation.ReflTransGen (Step cfgC exSeed) (initState cfgC exSeed) stateC5
  refine Relation.ReflTransGen.head
    (Step.dequeueNav (initState cfgC exSeed) "https://ex.com/" 0 [] [] []
      rfl rfl (by decide) (by decide) (by decide)) ?_
  refine Relation.ReflTransGen.head
    (Step.navOk _ "https://ex.com/" 0 [] [] rfl) ?_
  refine Relation.ReflTransGen.head
    (Step.countInc _ "https://ex.com/" 0 [] [] rfl) ?_
  refine Relation.ReflTransGen.head
    (Step.discover _ "https://ex.com/" 0 [] [] ["/a", "/b"] rfl) ?_
  refine Relation.ReflTransGen.head
    (Step.dequeueCap _ "https://ex.com/a" 1 [("https://ex.com/b", 1)] [] []
      rfl rfl (by decide)) ?_
  exact Relation.ReflTransGen.refl

/-- A decomposition of the singleton list `[exited]` pins the middle
element. -/
theorem eq_single_exited (pre post : List Phase) (ph : Phase)
    (h : pre ++ ph :: post = [Phase.exited]) : ph = Phase.exited := by
  cases pre with
  | nil =>
    injection h with h1 h2
  | cons a pre2 =>
    injection h with h1 h2
    exact absurd h2 (by simp)

/-! ## Claim theorems -/

/-- C1 (counterexample): the claim "pageCount is at most maxPages at every
point" is false.  With `max_pages = 2` and two workers, the reachable
state `stateA10` has `pageCount = 3`: both workers passed the max-pages
check while the counter was still 1 and both increments landed after
navigation. -/
theorem C1_page_cap_counterexample :
    Reachable cfgA exSeed stateA10 ∧ cfgA.max_pages < stateA10.pageCount :=
  ⟨reachA10, by decide⟩

/-- C1 (amended): because the max-pages check happens before navigation
and the increment after it, `pageCount` can overshoot by the number of
workers in flight: in every reachable state,
`pageCount ≤ maxPages + concurrencyPages - 1`. -/
theorem C1_page_cap_amended (cfg : ScraperConfig) (su : String) (s : EngineState)
    (h : Reachable cfg su s) :
    s.pageCount ≤ cfg.max_pages + cfg.concurrency_pages - 1 := by
  have hcap := (engineInv_reachable cfg su s h).cap
  omega

/-- Witness for `C1_page_cap_amended` at the concrete session `cfgA`:
the bound `2 + 2 - 1 = 3` is attained by `stateA10`. -/
theorem C1_page_cap_amended_witness :
    stateA10.pageCount ≤ cfgA.max_pages + cfgA.concurrency_pages - 1 :=
  C1_page_cap_amended cfgA exSeed stateA10 reachA10

/-- C2 (counterexample): the claim "otherwise the URL is added to
VisitedSet at enqueue time (reservation)" is false: in the reachable state
`stateA4` the URL `https://ex.com/a` has been enqueued but is not in
`seen_urls`; `_discover_links` only checks the sets, it never inserts. -/
theorem C2_reservation_counterexample :
    Reachable cfgA exSeed stateA4 ∧
    ("https://ex.com/a", 1) ∈ stateA4.queue ∧
    "https://ex.com/a" ∉ stateA4.seen :=
  ⟨reachA4, by decide, by decide⟩

/-- C2 (amended): enqueue is indeed a no-op when the normalized URL is in
VisitedSet or FailedSet or the child depth exceeds `max_depth`, and an
enqueued entry is fresh at enqueue time; but reservation happens at
processing (dequeue) time — the synchronous check-and-insert at the top of
`_scrape_page` — so a URL can sit in the queue more than once yet is taken
up for processing by at most one worker ever (the processed URLs of every
reachable state are pairwise distinct). -/
theorem C2_reservation_amended :
    (∀ cfg su seen failed d cu href v d',
        shouldEnqueue cfg su seen failed d cu href = some (v, d') →
        v ∉ seen ∧ v ∉ failed ∧ d' = d + 1 ∧ d' ≤ cfg.max_depth) ∧
    (∀ cfg su seen failed d cu href v,
        normalize_link cu href = some v →
        v ∈ seen ∨ v ∈ failed ∨ cfg.max_depth < d + 1 →
        shouldEnqueue cfg su seen failed d cu href = none) ∧
    (∀ cfg su s, Reachable cfg su s → (s.processed.map Prod.fst).Nodup) := by
  refine ⟨?_, ?_, ?_⟩
  · intro cfg su seen failed d cu href v d' h
    exact shouldEnqueue_some cfg su seen failed d cu href v d' h
  · intro cfg su seen failed d cu href v hn hk
    exact shouldEnqueue_none_of_known cfg su seen failed d cu href v hn hk
  · intro cfg su s h
    exact (engineInv_reachable cfg su s h).procNodup

/-- Witness for `C2_reservation_amended`: the processed URLs of `stateA10`
are pairwise distinct, and a href normalizing to an already-seen URL is
not enqueued. -/
theorem C2_reservation_amended_witness :
    (stateA10.processed.map Prod.fst).Nodup ∧
    shouldEnqueue cfgA exSeed ["https://ex.com/a"] [] 0 exSeed "/a" = none :=
  ⟨C2_reservation_amended.2.2 cfgA exSeed stateA10 reachA10,
   C2_reservation_amended.2.1 cfgA exSeed ["https://ex.com/a"] [] 0 exSeed "/a"
     "https://ex.com/a" (by decide) (Or.inl (by decide))⟩

/-- C3 (code bug): with the default configuration — `retry_failed_pages =
True`, `max_retries = 3` — a single navigation failure puts the URL
straight into FailedSet and the session drains with an empty queue: the
`(url, depth)` pair is never re-enqueued because `_scrape_page` reads
neither retry setting.  The spec's scenario "fails twice then succeeds
ends in VisitedSet, not FailedSet" is therefore unreachable in the code. -/
theorem C3_no_retry_bug :
    Reachable defaultConfig exSeed stateB2 ∧
    stateB2.failed = ["https://ex.com/"] ∧
    stateB2.queue = [] ∧
    drained stateB2 ∧
    defaultConfig.retry_failed_pages = true ∧
    defaultConfig.max_retries = 3 :=
  ⟨reachB2, rfl, rfl, rfl, rfl, rfl⟩

/-- C4 (counterexample): the claim "in exactly one of VisitedSet or
FailedSet — never both" is false: `_scrape_page` inserts the URL into
`seen_urls` before navigating, and a navigation failure then also adds it
to `failed_urls`, so in the terminal state `stateB2` the seed URL is in
both sets. -/
theorem C4_disjoint_counterexample :
    Reachable defaultConfig exSeed stateB2 ∧
    "https://ex.com/" ∈ stateB2.seen ∧
    "https://ex.com/" ∈ stateB2.failed :=
  ⟨reachB2, by decide, by decide⟩

/-- C4 (amended): every URL ever taken up for processing is in VisitedSet
("never neither" holds), and FailedSet is contained in VisitedSet — a
failed URL ends in both sets, so the two sets are not disjoint. -/
theorem C4_sets_amended (cfg : ScraperConfig) (su : String) (s : EngineState)
    (h : Reachable cfg su s) :
    (∀ p ∈ s.processed, p.1 ∈ s.seen) ∧ (∀ u ∈ s.failed, u ∈ s.seen) :=
  ⟨(engineInv_reachable cfg su s h).procSeen,
   (engineInv_reachable cfg su s h).failSeen⟩

/-- Witness for `C4_sets_amended` at the failed-navigation session: the
failed seed URL is (also) in VisitedSet. -/
theorem C4_sets_amended_witness : "https://ex.com/" ∈ stateB2.seen :=
  (C4_sets_amended defaultConfig exSeed stateB2 reachB2).2 "https://ex.com/" (by decide)

/-- C5 (code bug): once `pageCount >= maxPages`, a worker that dequeues an
entry discards it without side effects but then `return`s — the coroutine
exits instead of continuing to drain.  In the session `cfgC` (1 page,
1 worker) the reachable state `stateC5` still has a pending entry and
`unfinished = 1`, every worker has exited, and no further step exists:
`to_visit.join()` never returns and the session hangs instead of reaching
the drained state. -/
theorem C5_drain_hang_bug :
    Reachable cfgC exSeed stateC5 ∧
    ¬ drained stateC5 ∧
    ∀ s2, ¬ Step cfgC exSeed stateC5 s2 := by
  refine ⟨reachC5, fun hd => Nat.one_ne_zero hd, ?_⟩
  intro s2 hst
  cases hst with
  | dequeueCap u d rest pre post hq hw hcap =>
    exact Phase.noConfusion (eq_single_exited pre post _ hw.symm)
  | dequeueSeen u d rest pre post hq hw hcap hseen =>
    exact Phase.noConfusion (eq_single_exited pre post _ hw.symm)
  | dequeueBlocked u d rest pre post hq hw hcap hseen hblock =>
    exact Phase.noConfusion (eq_single_exited pre post _ hw.symm)
  | dequeueNav u d rest pre post hq hw hcap hseen hblock =>
    exact Phase.noConfusion (eq_single_exited pre post _ hw.symm)
  | navFail u d pre post hw =>
    exact Phase.noConfusion (eq_single_exited pre post _ hw.symm)
  | navOk u d pre post hw =>
    exact Phase.noConfusion (eq_single_exited pre post _ hw.symm)
  | countInc u d pre post hw =>
    exact Phase.noConfusion (eq_single_exited pre post _ hw.symm)
  | discover u d pre post links hw =>
    exact Phase.noConfusion (eq_single_exited pre post _ hw.symm)

/-- C6 (confirmed): the seed enters the frontier at depth 0, link
discovery enqueues a child only at depth `current + 1` when that does not
exceed `max_depth`, and consequently every URL ever taken up for
processing in any reachable state has depth at most `max_depth`. -/
theorem C6_depth_bound :
    (∀ (cfg : ScraperConfig) (su : String), (initState cfg su).queue = [(su, 0)]) ∧
    (∀ cfg su seen failed d cu href v d',
        shouldEnqueue cfg su seen failed d cu href = some (v, d') →
        d' = d + 1 ∧ d' ≤ cfg.max_depth) ∧
    (∀ cfg su s, Reachable cfg su s → ∀ p ∈ s.processed, p.2 ≤ cfg.max_depth) := by
  refine ⟨fun cfg su => rfl, ?_, ?_⟩
  · intro cfg su seen failed d cu href v d' h
    exact ⟨(shouldEnqueue_some cfg su seen failed d cu href v d' h).2.2.1,
           (shouldEnqueue_some cfg su seen failed d cu href v d' h).2.2.2⟩
  · intro cfg su s h
    exact (engineInv_reachable cfg su s h).procDepth

/-- Witness for `C6_depth_bound` at the `cfgA` session: the seed entry and
a depth-1 processed URL. -/
theorem C6_depth_bound_witness :
    (initState cfgA exSeed).queue = [(exSeed, 0)] ∧
    (("https://ex.com/a", 1) : String × Nat).2 ≤ cfgA.max_depth :=
  ⟨C6_depth_bound.1 cfgA exSeed,
   C6_depth_bound.2.2 cfgA exSeed stateA10 reachA10 ("https://ex.com/a", 1) (by decide)⟩

/-- C7 (confirmed): `normalize_link` returns null for empty input and for
hrefs that (after stripping) start with `mailto:`, `tel:`, `javascript:`
or `#`; any returned URL has its fragment stripped (it contains no `#`);
and `normalize_link("https://example.com/page", "/about") =
"https://example.com/about"`.  The function is total — the Python
`try/except` that returns `None` on a parser exception is modelled by
totality of the embedding. -/
theorem C7_normalize_ok :
    (∀ cu : String, normalize_link cu "" = none) ∧
    (∀ cu href, strStartsWith (trimStr href) "mailto:" = true →
        normalize_link cu href = none) ∧
    (∀ cu href, strStartsWith (trimStr href) "tel:" = true →
        normalize_link cu href = none) ∧
    (∀ cu href, strStartsWith (trimStr href) "javascript:" = true →
        normalize_link cu href = none) ∧
    (∀ cu href, strStartsWith (trimStr href) "#" = true →
        normalize_link cu href = none) ∧
    (∀ cu href r, normalize_link cu href = some r →
        strContainsChar r '#' = false) ∧
    normalize_link "https://example.com/page" "/about" = some "https://example.com/about" := by
  refine ⟨fun cu => rfl, ?_, ?_, ?_, ?_, ?_, by decide⟩
  · intro cu href h
    by_cases he : href = ""
    · subst he
      exact absurd h (by decide)
    · simp [normalize_link, if_neg he, h]
  · intro cu href h
    by_cases he : href = ""
    · subst he
      exact absurd h (by decide)
    · simp [normalize_link, if_neg he, h]
  · intro cu href h
    by_cases he : href = ""
    · subst he
      exact absurd h (by decide)
    · simp [normalize_link, if_neg he, h]
  · intro cu href h
    by_cases he : href = ""
    · subst he
      exact absurd h (by decide)
    · simp [normalize_link, if_neg he, h]
  · intro cu href r h
    by_cases he : href = ""
    · rw [he] at h
      exact Option.noConfusion h
    · simp only [normalize_link, if_neg he] at h
      by_cases ha : strStartsWith (trimStr href) "mailto:" = true ∨
          strStartsWith (trimStr href) "tel:" = true ∨
          strStartsWith (trimStr href) "javascript:" = true ∨
          strStartsWith (trimStr href) "#" = true
      · rw [if_pos ha] at h
        exact Option.noConfusion h
      · rw [if_neg ha] at h
        have hr := Option.some.inj h
        rw [hr.symm]
        exact urldefrag_fst_no_hash (urljoin cu (trimStr href))

/-- Witness for `C7_normalize_ok` at concrete hrefs: the rejection rules
and the fragment-stripping fact instantiated. -/
theorem C7_normalize_ok_witness :
    normalize_link "https://a.b/" "" = none ∧
    normalize_link "https://a.b/" "mailto:x@y" = none ∧
    normalize_link "https://a.b/" "tel:+1234" = none ∧
    normalize_link "https://a.b/" "javascript:void(0)" = none ∧
    normalize_link "https://a.b/" "#section" = none ∧
    strContainsChar "https://example.com/c" '#' = false :=
  ⟨C7_normalize_ok.1 "https://a.b/",
   C7_normalize_ok.2.1 "https://a.b/" "mailto:x@y" (by decide),
   C7_normalize_ok.2.2.1 "https://a.b/" "tel:+1234" (by decide),
   C7_normalize_ok.2.2.2.1 "https://a.b/" "javascript:void(0)" (by decide),
   C7_normalize_ok.2.2.2.2.1 "https://a.b/" "#section" (by decide),
   C7_normalize_ok.2.2.2.2.2.1 "https://example.com/page" "/c#frag"
     "https://example.com/c" (by decide)⟩

/-- C8 (counterexample): the claim "true for every URL whose path ends in
such an extension regardless of any query string" is false: the regex is
end-anchored on the whole URL string, so a query string defeats it even
when the path component ends in `.png`. -/
theorem C8_asset_counterexample :
    strEndsWith (urlparse "https://x.com/a.png?v=1").path ".png" = true ∧
    is_asset_url "https://x.com/a.png?v=1" = false :=
  ⟨by decide, by decide⟩

/-- C8 (amended): `is_asset_url(url)` is true iff the whole URL string,
case-insensitively, ends in one of the fixed asset extensions; a query
string or fragment after the path defeats the match, and a query string
itself ending in an extension triggers it. -/
theorem C8_asset_suffix_amended :
    (∀ url : String, is_asset_url url = true ↔
        ∃ ext ∈ assetExtensions, strEndsWith (lowerStr url) ("." ++ ext) = true) ∧
    is_asset_url "https://x.com/a.woff2" = true ∧
    is_asset_url "https://x.com/page" = false ∧
    is_asset_url "https://x.com/page?f=.png" = true := by
  refine ⟨?_, by decide, by decide, by decide⟩
  intro url
  simp [is_asset_url, List.any_eq_true]

/-- Witness for `C8_asset_suffix_amended`: the iff applied at a concrete
uppercase-extension URL. -/
theorem C8_asset_suffix_amended_witness : is_asset_url "https://x.com/f.TTF" = true :=
  (C8_asset_suffix_amended.1 "https://x.com/f.TTF").mpr ⟨"ttf", by decide, by decide⟩

/-- CLI invocation with only `--cross-origin` passed. -/
def crossOriginArgs : CliArgs := { defaultArgs with cross_origin := true }

/-- C9 (code bug): passing `--cross-origin` sets `respect_robots_txt` to
`False` (its default), and `_discover_links` applies the same-origin
filter exactly when `respect_robots_txt` is false — so with the flag a
cross-origin link is still not enqueued (while a same-origin link is),
identical to running without the flag.  The flag never disables the
same-origin restriction, contradicting its own help text "Allow crawling
off-site links". -/
theorem C9_cross_origin_bug :
    (applyCliArgs crossOriginArgs defaultConfig).respect_robots_txt = false ∧
    is_same_origin "https://example.com/" "https://other.com/x" = false ∧
    shouldEnqueue (applyCliArgs crossOriginArgs defaultConfig) "https://example.com/"
      [] [] 0 "https://example.com/" "https://other.com/x" = none ∧
    shouldEnqueue (applyCliArgs crossOriginArgs defaultConfig) "https://example.com/"
      [] [] 0 "https://example.com/" "/about" =
      some ("https://example.com/about", 1) ∧
    shouldEnqueue defaultConfig "https://example.com/"
      [] [] 0 "https://example.com/" "https://other.com/x" = none :=
  ⟨rfl, by decide, by decide, by decide, by decide⟩

/-- C10 (confirmed): merging a missing or empty (falsy) page-data value —
`none` in the model — leaves the session inventory completely unchanged,
every field included (`update_inventory` returns before touching any
collection). -/
theorem C10_merge_empty_frame (inv : Inventory) :
    update_inventory inv none = inv ∧
    (update_inventory inv none).fonts = inv.fonts ∧
    (update_inventory inv none).colors = inv.colors ∧
    (update_inventory inv none).pages = inv.pages ∧
    (update_inventory inv none).buttons = inv.buttons ∧
    (update_inventory inv none).canvases = inv.canvases ∧
    (update_inventory inv none).interactive_controls = inv.interactive_controls ∧
    (update_inventory inv none).components = inv.components ∧
    (update_inventory inv none).css_variables = inv.css_variables ∧
    (update_inventory inv none).meta = inv.meta :=
  ⟨rfl, rfl, rfl, rfl, rfl, rfl, rfl, rfl, rfl, rfl⟩

/-- Example inventory with non-trivial contents. -/
def invEx : Inventory :=
  { seed := "https://ex.com/"
    pages := [{ url := "https://ex.com/", meta := "t", links := ["a"] }]
    fonts := ["Arial"]
    colors := ["rgb(255, 0, 0)"]
    buttons := ["btn"]
    links := []
    css_variables := [("--primary", "red")]
    canvases := ["c"]
    interactive_controls := ["input"]
    components := []
    meta := { total_pages := 1, total_assets := 0,
              scraping_start := "2024", scraping_end := "" } }

/-- Witness for `C10_merge_empty_frame` at a populated inventory. -/
theorem C10_merge_empty_frame_witness : update_inventory invEx none = invEx :=
  (C10_merge_empty_frame invEx).1
